import Mathlib

/-!
Verification of the Teacher Scheduler assignment-grid engine.

Shallow embedding of the grid engine of `sayeed007/teacher-scheduler-vercel`:
the data model (`types/scheduler.ts`), the column-label parser
(`parseCourseNameFromColumnId` in `components/catalog/CatalogManager.tsx`),
the visibility filter and relocation handler (`handleDragEnd` in
`components/scheduler/SchedulerGrid.tsx`), the aggregation
(`useSummaryCalculations.ts`), the persisted view state
(`hooks/usePersistedSchedulerState.ts`) and the derived teacher metrics
(`calculateTeacherMetrics`).  Machine numbers in the source are JS numbers
holding integers; they are modelled as `Int`.
-/

namespace TeacherScheduler

/-- `Division = 'MS' | 'HS'` from `types/scheduler.ts`. -/
inductive Division where
  | MS : Division
  | HS : Division
deriving DecidableEq

/-- `Assignment` from `types/scheduler.ts`.  The optional `color` display
override is omitted (presentation only, read by no claim). -/
structure Assignment where
  courseId : String
  courseName : String
  courseGroup : String
  load : Int
  isCPT : Bool
  students : Option Int
deriving DecidableEq

/-- `Teacher` from `types/scheduler.ts`.  The optional denormalised
`totalLoad`/`availablePeriods` caches are derived data, modelled by
`calculateTeacherMetrics` below; `otherRole` is display-only. -/
structure Teacher where
  id : String
  name : String
  division : Division
  maxLoad : Int
  preps : Int
  students : Int
  assignments : List Assignment
deriving DecidableEq

/-- `CourseColumnMetadata` from `types/scheduler.ts`. -/
structure CourseColumnMetadata where
  columnId : String
  totalSections : Int
  periodsPerCycle : Int
  remainingPeriod : Int
  studentsPerSection : Int
deriving DecidableEq

/-- `CourseGroup` from `types/scheduler.ts`.  `columns` may be absent in old
data (the code defends with `group?.columns || group?.courses || []`), so both
`columns` and the legacy `courses` list are optional here. -/
structure CourseGroup where
  id : String
  label : String
  color : String
  order : Int
  courses : Option (List String)
  columns : Option (List String)
  isSystem : Option Bool
  columnMetadata : Option (List CourseColumnMetadata)
deriving DecidableEq

/-- `const columnList = group?.columns || group?.courses || []` — a present
(even empty) `columns` array is truthy in JS, so it wins over `courses`. -/
def columnListOf (g : CourseGroup) : List String :=
  match g.columns with
  | some l => l
  | none =>
    match g.courses with
    | some l => l
    | none => []

/-- Character-level rendering of `columnId.split('_')`: splitting on a
single separator character, JS semantics (`"a__b"` gives `["a","","b"]`,
`""` gives `[""]`). -/
def splitOnChar (sep : Char) : List Char → List (List Char)
  | [] => [[]]
  | c :: rest =>
    match splitOnChar sep rest with
    | [] => [[c]]
    | h :: t => if c == sep then [] :: h :: t else (c :: h) :: t

/-- `parseCourseNameFromColumnId` from `CatalogManager.tsx` (also imported by
the grid and the aggregation as the column-label parser).  First branch:
strip the `groupId + "_"` leading marker and substitute underscores with
spaces.  Fallback branch (legacy ids): split on `_`, drop the first token,
then base / parenthesised middle / suffix. -/
def parseCourseNameFromColumnId (columnId groupId : String) : String :=
  let pfx : List Char := groupId.data ++ ['_']
  let colData : List Char := columnId.data
  if pfx.isPrefixOf colData then
    String.mk ((colData.drop pfx.length).map (fun c => if c == '_' then ' ' else c))
  else if !(colData.contains '_') then columnId
  else
    let parts := splitOnChar '_' colData
    let rest := parts.tail
    match rest with
    | [] => columnId    -- unreachable: the id contains '_' so the split has ≥ 2 parts
    | [only] => String.mk only
    | base :: more =>
      let suffix := more.getLastD []
      let middle := more.dropLast
      if middle.length > 0 then
        String.mk (base ++ ['('] ++ middle.flatten ++ [')'] ++ suffix)
      else
        String.mk (base ++ suffix)

example : parseCourseNameFromColumnId "CCW6_CCW_E_6" "CCW6" = "CCW E 6" := by decide
example : parseCourseNameFromColumnId "OTHER_SUBJECTS_TOK" "OTHER_SUBJECTS" = "TOK" := by decide
example : parseCourseNameFromColumnId "CCW6_CCW6" "CCW6" = "CCW6" := by decide
example : parseCourseNameFromColumnId "XX_CCW_E_6" "CCW6" = "CCW(E)6" := by decide

/-- The `visibleTeachers` memo of `SchedulerGrid.tsx`:
`teachers.filter(t => !state.collapsedDivisions.includes(t.division))`. -/
def visibleTeachers (teachers : List Teacher) (collapsedDivisions : List Division) :
    List Teacher :=
  teachers.filter (fun t => !(collapsedDivisions.contains t.division))

/-- `PersistedSchedulerState` from `types/scheduler.ts`. -/
structure PersistedSchedulerState where
  collapsedCourseGroups : List String
  collapsedDivisions : List Division
  sortBy : Option String
  prepsThreshold : Int
  lastAccessed : String
deriving DecidableEq

/-- `toggleDivision` from `usePersistedSchedulerState.ts`.  The wall-clock
timestamp written into `lastAccessed` is passed in as `now`. -/
def toggleDivision (division : Division) (now : String)
    (s : PersistedSchedulerState) : PersistedSchedulerState :=
  let isCollapsed := s.collapsedDivisions.contains division
  { s with
    collapsedDivisions :=
      if isCollapsed then s.collapsedDivisions.filter (fun d => d != division)
      else s.collapsedDivisions ++ [division],
    lastAccessed := now }

/-- `TeacherMetrics` from `types/scheduler.ts`. -/
structure TeacherMetrics where
  totalLoad : Int
  availablePeriods : Int
  totalStudents : Int
deriving DecidableEq

/-- `calculateTeacherMetrics` from `lib/teacherMetrics`: total load excludes
CPT courses; `availablePeriods = maxLoad - totalLoad` with no clamping;
`totalStudents` sums `students || 0` over all assignments. -/
def calculateTeacherMetrics (teacher : Teacher) : TeacherMetrics :=
  let totalLoad :=
    ((teacher.assignments.filter (fun a => !a.isCPT)).map (fun a => a.load)).sum
  let availablePeriods := teacher.maxLoad - totalLoad
  let totalStudents :=
    (teacher.assignments.map (fun a => (a.students.getD 0))).sum
  { totalLoad := totalLoad
    availablePeriods := availablePeriods
    totalStudents := totalStudents }

/-- The `active.data.current` payload of a drag gesture
(`AssignmentCell.tsx` `useDraggable` data). -/
structure DragData where
  assignment : Assignment
  teacherId : String
  courseGroup : String
deriving DecidableEq

/-- The `over.data.current` payload of a drop target
(`AssignmentCell.tsx` `useDroppable` data). -/
structure DropData where
  teacherId : String
  courseGroup : String
  courseName : String
deriving DecidableEq

/-- Outcome of `handleDragEnd` in `SchedulerGrid.tsx`.  `accepted` carries the
`(teacherId, newAssignments)` records handed to `onAssignmentUpdate` (the
first entry is the source teacher; a second entry is present exactly for
cross-teacher moves). -/
inductive RelocationResult where
  | rejectedDifferentGroup : RelocationResult
  | missingTeacher : RelocationResult
  | rejectedSameCell : RelocationResult
  | accepted : List (String × List Assignment) → RelocationResult
deriving DecidableEq

/-- `handleDragEnd` from `SchedulerGrid.tsx`, minus the DOM-level
`!over || active.id === over.id` early return (pure presentation).  Checks in
source order: cross-group rejection, teacher lookup, identical-cell rejection;
the capacity check is commented out in the source, so acceptance never reads
`maxLoad`.  On acceptance every source assignment sharing the moved
assignment's `courseId` is filtered out, and (cross-teacher case) the moved
assignment is appended to the target with `courseName` rewritten to the
destination column's name. -/
def handleDragEnd (teachers : List Teacher) (drag : DragData) (drop : DropData) :
    RelocationResult :=
  if drag.courseGroup != drop.courseGroup then
    .rejectedDifferentGroup
  else
    match teachers.find? (fun t => t.id == drag.teacherId),
          teachers.find? (fun t => t.id == drop.teacherId) with
    | some sourceTeacher, some targetTeacher =>
      if drag.teacherId == drop.teacherId &&
          drag.assignment.courseName == drop.courseName then
        .rejectedSameCell
      else
        let updatedSourceAssignments :=
          sourceTeacher.assignments.filter
            (fun a => !(a.courseId == drag.assignment.courseId))
        if drag.teacherId == drop.teacherId then
          .accepted [(sourceTeacher.id,
            updatedSourceAssignments ++
              [{ drag.assignment with courseName := drop.courseName }])]
        else
          .accepted [(sourceTeacher.id, updatedSourceAssignments),
            (targetTeacher.id,
              targetTeacher.assignments ++
                [{ drag.assignment with courseName := drop.courseName }])]
    | _, _ => .missingTeacher

/-- `handleAssignmentUpdate` from `src/app/page.tsx`: the update records are
loaded into a `Map` keyed by teacher id (later entries overwrite earlier
ones), then every teacher whose id is in the map gets its assignment list
replaced.  The `enhanceTeacherWithMetrics` step only refreshes the derived
caches modelled by `calculateTeacherMetrics`. -/
def applyAssignmentUpdates (teachers : List Teacher)
    (updates : List (String × List Assignment)) : List Teacher :=
  teachers.map (fun t =>
    match (updates.filter (fun u => u.1 == t.id)).getLast? with
    | some u => { t with assignments := u.2 }
    | none => t)

/-- `CourseTotals` from `headerTypes.ts`.  The `periodsPerStudent` display
field (floating-point division, read by no claim) is omitted. -/
structure CourseTotals where
  students : Int
  load : Int
  remaining : Int
  studentCount : Int
deriving DecidableEq

/-- The per-column body of `useSummaryCalculations.ts`: for the column
`columnId` of group `g`, scan `visibleRows` accumulating the first assignment
of each teacher matching `(courseName, group.id)` (the source uses
`teacher.assignments.find(...)`); `remaining` uses
`metadata?.periodsPerCycle || 0` guarded by `capacity > 0`. -/
def courseTotalsFor (visibleRows : List Teacher) (g : CourseGroup)
    (columnId : String) : CourseTotals :=
  let courseName := parseCourseNameFromColumnId columnId g.id
  let matched : List (Option Assignment) :=
    visibleRows.map (fun t =>
      t.assignments.find? (fun a =>
        a.courseName == courseName && a.courseGroup == g.id))
  let totalStudents :=
    (matched.map (fun m =>
      match m with
      | some a => a.students.getD 0
      | none => 0)).sum
  let totalLoad :=
    (matched.map (fun m =>
      match m with
      | some a => a.load
      | none => 0)).sum
  let studentCount : Int :=
    (matched.countP (fun m =>
      match m with
      | some a =>
        match a.students with
        | some s => s > 0
        | none => false
      | none => false) : Nat)
  let metadata :=
    g.columnMetadata.bind (fun ms => ms.find? (fun m => m.columnId == columnId))
  let capacity : Int :=
    match metadata with
    | some m => m.periodsPerCycle
    | none => 0
  let remaining := if capacity > 0 then capacity - totalLoad else 0
  { students := totalStudents
    load := totalLoad
    remaining := remaining
    studentCount := studentCount }

/-- The visible course groups of `useSummaryCalculations.ts` /
`SchedulerGrid.tsx`: groups whose id is not in `collapsedCourseGroups`. -/
def visibleCourseGroups (courseGroups : List CourseGroup)
    (collapsedCourseGroups : List String) : List CourseGroup :=
  courseGroups.filter (fun g => !(collapsedCourseGroups.contains g.id))

/-- The visible `(group, columnId)` cells, in group order then column-list
order, exactly the iteration space of both the aggregation and the grid's
course-column construction. -/
def visibleColumns (courseGroups : List CourseGroup)
    (collapsedCourseGroups : List String) : List (CourseGroup × String) :=
  (visibleCourseGroups courseGroups collapsedCourseGroups).flatMap
    (fun g => (columnListOf g).map (fun c => (g, c)))

/-- The keyed `courseTotals` record built by `useSummaryCalculations.ts`
(assoc list standing in for the JS record; key = `` `${group.id}-${name}` ``). -/
def summaryCourseTotals (visibleRows : List Teacher)
    (courseGroups : List CourseGroup) (collapsedCourseGroups : List String) :
    List (String × CourseTotals) :=
  (visibleColumns courseGroups collapsedCourseGroups).map (fun p =>
    (p.1.id ++ "-" ++ parseCourseNameFromColumnId p.2 p.1.id,
     courseTotalsFor visibleRows p.1 p.2))

/-- Total load over all visible columns, as recomputed by the aggregation:
the sum of per-column `loadSum` over the visible cells.  This is the quantity
the spec's §8 conservation invariant speaks about. -/
def totalLoadSum (visibleRows : List Teacher) (courseGroups : List CourseGroup)
    (collapsedCourseGroups : List String) : Int :=
  ((visibleColumns courseGroups collapsedCourseGroups).map
    (fun p => (courseTotalsFor visibleRows p.1 p.2).load)).sum

/-! ### Shared helper lemmas -/

/-- `find?` skips over a non-matching element in the middle of a list. -/
theorem find?_middle_of_not {α : Type} (p : α → Bool) (l1 l2 : List α) (x : α)
    (h : ¬ p x) : (l1 ++ x :: l2).find? p = (l1 ++ l2).find? p := by
  rw [List.find?_append, List.find?_append, List.find?_cons_of_neg _ h]

/-- `find?` ignores a non-matching element appended at the end. -/
theorem find?_append_single_of_not {α : Type} (p : α → Bool) (l : List α) (x : α)
    (h : ¬ p x) : (l ++ [x]).find? p = l.find? p := by
  rw [List.find?_append, List.find?_singleton, if_neg h, Option.or_none]

/-- `find?` returns the head of the filtered list. -/
theorem find?_eq_head_filter {α : Type} (p : α → Bool) (l : List α) :
    l.find? p = (l.filter p).head? := by
  induction l with
  | nil => rfl
  | cons hd tl ih =>
    by_cases h : p hd
    · rw [List.find?_cons_of_pos _ h, List.filter_cons_of_pos h, List.head?_cons]
    · rw [List.find?_cons_of_neg _ h, List.filter_cons_of_neg h, ih]

/-- Splitting a list's length into matching and non-matching parts. -/
theorem length_filter_not_add_countP {α : Type} (p : α → Bool) (l : List α) :
    (l.filter (fun a => !(p a))).length + l.countP p = l.length := by
  induction l with
  | nil => rfl
  | cons hd tl ih =>
    by_cases h : p hd <;> simp [List.filter_cons, List.countP_cons, h] <;> omega

/-! ### C3 — the column-label parser versus the spec's (and the code's own
doc comment's) examples -/

/-- C3: the spec (and the parser's own doc comment) promise
`parseColumnLabel("CCW6_CCW_E_6", "CCW6") = "CCW(E)6"`, but the prefix-strip
branch fires first and the code returns `"CCW E 6"`; the second example
(`"OTHER_SUBJECTS_TOK"` ↦ `"TOK"`) does hold.  This evaluates the code at the
failing input. -/
theorem parseColumnLabel_doc_example_fails :
    parseCourseNameFromColumnId "CCW6_CCW_E_6" "CCW6" = "CCW E 6" ∧
    parseCourseNameFromColumnId "CCW6_CCW_E_6" "CCW6" ≠ "CCW(E)6" ∧
    parseCourseNameFromColumnId "OTHER_SUBJECTS_TOK" "OTHER_SUBJECTS" = "TOK" :=
  ⟨by decide, by decide, by decide⟩

/-! ### C2 — cross-group relocation is rejected -/

/-- C2: whenever the destination column's group differs from the moved
assignment's group (the drag payload's `courseGroup` is the group of the cell
the assignment is rendered in, so it equals `assignment.courseGroup`), the
drop is rejected with the invalid-relocation reason and no mutated records
are produced. -/
theorem crossGroup_relocation_rejected (teachers : List Teacher)
    (drag : DragData) (drop : DropData)
    (hctx : drag.courseGroup = drag.assignment.courseGroup)
    (hne : drag.assignment.courseGroup ≠ drop.courseGroup) :
    handleDragEnd teachers drag drop = RelocationResult.rejectedDifferentGroup ∧
    ∀ updates, handleDragEnd teachers drag drop ≠ RelocationResult.accepted updates := by
  have hbne : (drag.courseGroup != drop.courseGroup) = true := by
    rw [hctx]; exact bne_iff_ne.mpr hne
  constructor
  · unfold handleDragEnd
    rw [if_pos hbne]
  · intro updates
    unfold handleDragEnd
    rw [if_pos hbne]
    exact fun h => RelocationResult.noConfusion h

/-- Witness for C2 at the spec's concrete scenario: source assignment
`CCW6_A` in group `CCW6` dropped on a `CCW7` column. -/
theorem crossGroup_relocation_rejected_witness :
    handleDragEnd []
      ⟨⟨"CCW6_A", "A", "CCW6", 6, false, none⟩, "T1", "CCW6"⟩
      ⟨"T2", "CCW7", "B"⟩ = RelocationResult.rejectedDifferentGroup :=
  (crossGroup_relocation_rejected []
    ⟨⟨"CCW6_A", "A", "CCW6", 6, false, none⟩, "T1", "CCW6"⟩
    ⟨"T2", "CCW7", "B"⟩ (by decide) (by decide)).1

/-! ### C8 — the visibility filter -/

/-- C8: `visibleTeachers` keeps exactly the rows whose division is not in the
collapsed set and is order-preserving (a sublist of the input); being a pure
function, it leaves the input list untouched. -/
theorem visibleTeachers_filter_spec (teachers : List Teacher)
    (collapsed : List Division) :
    (visibleTeachers teachers collapsed).Sublist teachers ∧
    ∀ t, t ∈ visibleTeachers teachers collapsed ↔
      t ∈ teachers ∧ t.division ∉ collapsed := by
  constructor
  · exact List.filter_sublist _
  · intro t
    simp [visibleTeachers, List.mem_filter]

/-! ### C9 — division toggle round trip -/

/-- C9: collapsing a division that is not currently collapsed and then
expanding it again restores the collapsed-division list exactly, hence the
visible-row sequence over any unchanged row set is restored. -/
theorem toggleDivision_roundTrip (teachers : List Teacher)
    (s : PersistedSchedulerState) (d : Division) (t1 t2 : String)
    (h : d ∉ s.collapsedDivisions) :
    (toggleDivision d t2 (toggleDivision d t1 s)).collapsedDivisions =
      s.collapsedDivisions ∧
    visibleTeachers teachers
        (toggleDivision d t2 (toggleDivision d t1 s)).collapsedDivisions =
      visibleTeachers teachers s.collapsedDivisions := by
  have hc : s.collapsedDivisions.contains d = false := by
    simpa using h
  have hstep : (toggleDivision d t2 (toggleDivision d t1 s)).collapsedDivisions =
      s.collapsedDivisions := by
    unfold toggleDivision
    simp only [hc, Bool.false_eq_true, if_false]
    have hc2 : (s.collapsedDivisions ++ [d]).contains d = true := by
      simp
    simp only [hc2, if_true]
    rw [List.filter_append]
    have h1 : s.collapsedDivisions.filter (fun x => x != d) = s.collapsedDivisions := by
      apply List.filter_eq_self.mpr
      intro a ha
      exact bne_iff_ne.mpr (fun heq => h (heq ▸ ha))
    have h2 : [d].filter (fun x => x != d) = [] := by simp
    rw [h1, h2, List.append_nil]
  exact ⟨hstep, by rw [hstep]⟩

/-- Witness for C9: a concrete state with `MS` not collapsed. -/
theorem toggleDivision_roundTrip_witness :
    (toggleDivision Division.MS "t2"
        (toggleDivision Division.MS "t1"
          ⟨[], [Division.HS], none, 3, "t0"⟩)).collapsedDivisions =
      [Division.HS] :=
  (toggleDivision_roundTrip [] ⟨[], [Division.HS], none, 3, "t0"⟩
    Division.MS "t1" "t2" (by decide)).1

/-! ### C7 — `remainingFromCapacity` versus the catalog figure -/

/-- Counterexample to C7 as stated: a catalog periods-per-cycle figure that is
present but `0` is swallowed by `metadata?.periodsPerCycle || 0` and the
`capacity > 0` guard, so with `loadSum = 3` the code yields `remaining = 0`
instead of the claimed `0 - 3`. -/
theorem remainingFromCapacity_zero_figure_counterexample :
    ((⟨"G", "G", "#fff", 0, none, some ["G_X"], none,
        some [⟨"G_X", 1, 0, 0, 0⟩]⟩ : CourseGroup).columnMetadata.bind
        (fun ms => ms.find? (fun m => m.columnId == "G_X")) =
      some ⟨"G_X", 1, 0, 0, 0⟩) ∧
    (courseTotalsFor
        [⟨"T1", "n", Division.MS, 10, 0, 0, [⟨"c1", "X", "G", 3, false, none⟩]⟩]
        ⟨"G", "G", "#fff", 0, none, some ["G_X"], none,
          some [⟨"G_X", 1, 0, 0, 0⟩]⟩ "G_X").load = 3 ∧
    (courseTotalsFor
        [⟨"T1", "n", Division.MS, 10, 0, 0, [⟨"c1", "X", "G", 3, false, none⟩]⟩]
        ⟨"G", "G", "#fff", 0, none, some ["G_X"], none,
          some [⟨"G_X", 1, 0, 0, 0⟩]⟩ "G_X").remaining ≠ (0 : Int) - 3 :=
  ⟨by decide, by decide, by decide⟩

/-- C7 amended: `remainingFromCapacity = catalogPeriodsPerCycle - loadSum`
whenever the catalog figure is present AND positive; it is `0` when the
figure is absent, and also `0` when a figure is present but non-positive
(the code treats a present figure of `0` like an absent one). -/
theorem remainingFromCapacity_amended (rows : List Teacher) (g : CourseGroup)
    (columnId : String) :
    (∀ m, g.columnMetadata.bind
        (fun ms => ms.find? (fun x => x.columnId == columnId)) = some m →
      (0 < m.periodsPerCycle →
        (courseTotalsFor rows g columnId).remaining =
          m.periodsPerCycle - (courseTotalsFor rows g columnId).load) ∧
      (m.periodsPerCycle ≤ 0 →
        (courseTotalsFor rows g columnId).remaining = 0)) ∧
    (g.columnMetadata.bind
        (fun ms => ms.find? (fun x => x.columnId == columnId)) = none →
      (courseTotalsFor rows g columnId).remaining = 0) := by
  refine ⟨fun m hm => ⟨fun hpos => ?_, fun hnpos => ?_⟩, fun hnone => ?_⟩
  · simp [courseTotalsFor, hm, hpos]
  · have : ¬ (0 : Int) < m.periodsPerCycle := by omega
    simp [courseTotalsFor, hm, this]
  · simp [courseTotalsFor, hnone]

/-- Witness for C7 at a concrete column with figure `5` and load `2`. -/
theorem remainingFromCapacity_amended_witness :
    (courseTotalsFor
        [⟨"T1", "n", Division.MS, 10, 0, 0, [⟨"c1", "X", "G", 2, false, none⟩]⟩]
        ⟨"G", "G", "#fff", 0, none, some ["G_X"], none,
          some [⟨"G_X", 1, 5, 0, 0⟩]⟩ "G_X").remaining =
      5 - (courseTotalsFor
        [⟨"T1", "n", Division.MS, 10, 0, 0, [⟨"c1", "X", "G", 2, false, none⟩]⟩]
        ⟨"G", "G", "#fff", 0, none, some ["G_X"], none,
          some [⟨"G_X", 1, 5, 0, 0⟩]⟩ "G_X").load :=
  ((remainingFromCapacity_amended
      [⟨"T1", "n", Division.MS, 10, 0, 0, [⟨"c1", "X", "G", 2, false, none⟩]⟩]
      ⟨"G", "G", "#fff", 0, none, some ["G_X"], none,
        some [⟨"G_X", 1, 5, 0, 0⟩]⟩ "G_X").1
    ⟨"G_X", 1, 5, 0, 0⟩ (by decide)).1 (by decide)

/-! ### C5 — capacity is not enforced on relocation -/

/-- `find?` by teacher id commutes with rewriting every teacher's `maxLoad`
(the predicate only reads the id, which the rewrite preserves). -/
theorem find?_teacher_map_maxLoad (ts : List Teacher) (f : Teacher → Int)
    (tid : String) :
    (ts.map (fun t => { t with maxLoad := f t })).find? (fun t => t.id == tid) =
      (ts.find? (fun t => t.id == tid)).map (fun t => { t with maxLoad := f t }) := by
  induction ts with
  | nil => rfl
  | cons hd tl ih =>
    by_cases h : hd.id == tid
    · simp [List.find?_cons, h]
    · simp [List.find?_cons, h, ih]

/-- C5: once the cross-group and identical-cell checks pass, the move is
accepted; the decision (the capacity check is commented out in the source)
is invariant under arbitrary rewrites of every teacher's `maxLoad`; and the
derived `availablePeriods` is `maxLoad - totalLoad` with no clamping, so it
goes negative whenever the consumed load exceeds `maxLoad`. -/
theorem relocation_capacity_not_enforced
    (teachers : List Teacher) (drag : DragData) (drop : DropData) (A B : Teacher)
    (hgroup : drag.courseGroup = drop.courseGroup)
    (hA : teachers.find? (fun t => t.id == drag.teacherId) = some A)
    (hB : teachers.find? (fun t => t.id == drop.teacherId) = some B)
    (hcell : ¬(drag.teacherId = drop.teacherId ∧
      drag.assignment.courseName = drop.courseName)) :
    (∃ updates, handleDragEnd teachers drag drop =
      RelocationResult.accepted updates) ∧
    (∀ (ts : List Teacher) (dg : DragData) (dp : DropData) (f : Teacher → Int),
      handleDragEnd (ts.map (fun t => { t with maxLoad := f t })) dg dp =
        handleDragEnd ts dg dp) ∧
    (∀ t : Teacher, t.maxLoad < (calculateTeacherMetrics t).totalLoad →
      (calculateTeacherMetrics t).availablePeriods < 0) := by
  refine ⟨?_, ?_, ?_⟩
  · have hbne : (drag.courseGroup != drop.courseGroup) = false := by
      simp [hgroup]
    have hcellb : (drag.teacherId == drop.teacherId &&
        drag.assignment.courseName == drop.courseName) = false := by
      by_cases h1 : drag.teacherId = drop.teacherId
      · by_cases h2 : drag.assignment.courseName = drop.courseName
        · exact absurd ⟨h1, h2⟩ hcell
        · simp [h2]
      · simp [h1]
    unfold handleDragEnd
    simp only [hbne, Bool.false_eq_true, if_false, hA, hB, hcellb]
    by_cases h3 : (drag.teacherId == drop.teacherId) = true <;> simp [h3]
  · intro ts dg dp f
    unfold handleDragEnd
    by_cases hg : (dg.courseGroup != dp.courseGroup) = true
    · simp [hg]
    · simp only [hg, Bool.false_eq_true, if_false,
        find?_teacher_map_maxLoad]
      cases h1 : ts.find? (fun t => t.id == dg.teacherId) <;>
        cases h2 : ts.find? (fun t => t.id == dp.teacherId) <;>
          simp
  · intro t ht
    simp only [calculateTeacherMetrics] at ht ⊢
    omega

/-- Witness for C5: a cross-teacher move onto a teacher with `maxLoad = 0` is
accepted, and that teacher's post-move `availablePeriods` is negative. -/
theorem relocation_capacity_not_enforced_witness :
    (∃ updates,
      handleDragEnd
        [⟨"A", "a", Division.MS, 10, 0, 0, [⟨"c1", "X", "G", 5, false, none⟩]⟩,
         ⟨"B", "b", Division.MS, 0, 0, 0, []⟩]
        ⟨⟨"c1", "X", "G", 5, false, none⟩, "A", "G"⟩ ⟨"B", "G", "X"⟩ =
      RelocationResult.accepted updates) ∧
    (calculateTeacherMetrics
      ⟨"B", "b", Division.MS, 0, 0, 0,
        [⟨"c1", "X", "G", 5, false, none⟩]⟩).availablePeriods < 0 := by
  have h := relocation_capacity_not_enforced
    [⟨"A", "a", Division.MS, 10, 0, 0, [⟨"c1", "X", "G", 5, false, none⟩]⟩,
     ⟨"B", "b", Division.MS, 0, 0, 0, []⟩]
    ⟨⟨"c1", "X", "G", 5, false, none⟩, "A", "G"⟩ ⟨"B", "G", "X"⟩
    ⟨"A", "a", Division.MS, 10, 0, 0, [⟨"c1", "X", "G", 5, false, none⟩]⟩
    ⟨"B", "b", Division.MS, 0, 0, 0, []⟩
    (by decide) (by decide) (by decide) (by decide)
  exact ⟨h.1, h.2.2 _ (by decide)⟩

/-! ### C10 — a cross-teacher move removes every source assignment sharing
the moved `courseId` -/

/-- C10: for an accepted cross-teacher relocation, the returned source list is
the original source list with EVERY assignment whose `courseId` equals the
moved assignment's `courseId` filtered out (membership characterised both
ways), while exactly one assignment is appended to the destination list; the
length bookkeeping shows the pair's total count shrinks by `n - 1` when the
source held `n` such assignments. -/
theorem crossTeacher_move_removes_all_with_courseId
    (teachers : List Teacher) (drag : DragData) (drop : DropData) (A B : Teacher)
    (hgroup : drag.courseGroup = drop.courseGroup)
    (hA : teachers.find? (fun t => t.id == drag.teacherId) = some A)
    (hB : teachers.find? (fun t => t.id == drop.teacherId) = some B)
    (hcross : drag.teacherId ≠ drop.teacherId) :
    handleDragEnd teachers drag drop = RelocationResult.accepted
      [(A.id, A.assignments.filter
          (fun a => !(a.courseId == drag.assignment.courseId))),
       (B.id, B.assignments ++
          [{ drag.assignment with courseName := drop.courseName }])] ∧
    (∀ a ∈ A.assignments.filter
        (fun a => !(a.courseId == drag.assignment.courseId)),
      a.courseId ≠ drag.assignment.courseId) ∧
    (∀ a ∈ A.assignments, a.courseId ≠ drag.assignment.courseId →
      a ∈ A.assignments.filter
        (fun a => !(a.courseId == drag.assignment.courseId))) ∧
    (A.assignments.filter
        (fun a => !(a.courseId == drag.assignment.courseId))).length +
      A.assignments.countP (fun a => a.courseId == drag.assignment.courseId) =
      A.assignments.length ∧
    (B.assignments ++
        [{ drag.assignment with courseName := drop.courseName }]).length =
      B.assignments.length + 1 := by
  refine ⟨?_, ?_, ?_, ?_, ?_⟩
  · have hbne : (drag.courseGroup != drop.courseGroup) = false := by
      simp [hgroup]
    have hcellb : (drag.teacherId == drop.teacherId &&
        drag.assignment.courseName == drop.courseName) = false := by
      simp [hcross]
    have hteacherb : (drag.teacherId == drop.teacherId) = false := by
      simp [hcross]
    unfold handleDragEnd
    simp only [hbne, Bool.false_eq_true, if_false, hA, hB, hcellb, hteacherb,
      Bool.false_and]
  · intro a ha
    simp only [List.mem_filter, Bool.not_eq_true', beq_eq_false_iff_ne] at ha
    exact ha.2
  · intro a ha hne
    exact List.mem_filter.mpr ⟨ha, by
      simp only [Bool.not_eq_true', beq_eq_false_iff_ne]; exact hne⟩
  · exact length_filter_not_add_countP
      (fun a => a.courseId == drag.assignment.courseId) A.assignments
  · simp

/-- Witness for C10: the source holds two assignments with courseId `c1`;
after moving one of them, the source list is empty (both removed) and the
destination gained exactly one. -/
theorem crossTeacher_move_removes_all_with_courseId_witness :
    handleDragEnd
      [⟨"A", "a", Division.MS, 10, 0, 0,
        [⟨"c1", "X", "G", 3, false, none⟩, ⟨"c1", "Y", "G", 4, false, none⟩]⟩,
       ⟨"B", "b", Division.MS, 10, 0, 0, []⟩]
      ⟨⟨"c1", "X", "G", 3, false, none⟩, "A", "G"⟩ ⟨"B", "G", "X"⟩ =
      RelocationResult.accepted
        [("A", []), ("B", [⟨"c1", "X", "G", 3, false, none⟩])] := by
  have h := crossTeacher_move_removes_all_with_courseId
    [⟨"A", "a", Division.MS, 10, 0, 0,
      [⟨"c1", "X", "G", 3, false, none⟩, ⟨"c1", "Y", "G", 4, false, none⟩]⟩,
     ⟨"B", "b", Division.MS, 10, 0, 0, []⟩]
    ⟨⟨"c1", "X", "G", 3, false, none⟩, "A", "G"⟩ ⟨"B", "G", "X"⟩
    ⟨"A", "a", Division.MS, 10, 0, 0,
      [⟨"c1", "X", "G", 3, false, none⟩, ⟨"c1", "Y", "G", 4, false, none⟩]⟩
    ⟨"B", "b", Division.MS, 10, 0, 0, []⟩
    (by decide) (by decide) (by decide) (by decide)
  exact h.1.trans (by decide)

/-! ### C6 — same-teacher relocation is a pure label rewrite -/

/-- Counterexample to C6 as stated: a teacher holding TWO assignments with the
same `courseId` (loads 3 and 4).  Relocating one of them within the same
teacher filters out both and re-adds only the moved one, so the assignment
list is not merely replaced and `consumedLoad` drops from 7 to 3. -/
theorem sameTeacher_rewrite_counterexample :
    handleDragEnd
      [⟨"T", "n", Division.MS, 10, 0, 0,
        [⟨"c1", "X", "G", 3, false, none⟩, ⟨"c1", "Y", "G", 4, false, none⟩]⟩]
      ⟨⟨"c1", "X", "G", 3, false, none⟩, "T", "G"⟩ ⟨"T", "G", "Z"⟩ =
      RelocationResult.accepted [("T", [⟨"c1", "Z", "G", 3, false, none⟩])] ∧
    (calculateTeacherMetrics
      ⟨"T", "n", Division.MS, 10, 0, 0,
        [⟨"c1", "X", "G", 3, false, none⟩,
         ⟨"c1", "Y", "G", 4, false, none⟩]⟩).totalLoad = 7 ∧
    (calculateTeacherMetrics
      ⟨"T", "n", Division.MS, 10, 0, 0,
        [⟨"c1", "Z", "G", 3, false, none⟩]⟩).totalLoad = 3 :=
  ⟨by decide, by decide, by decide⟩

/-- C6 amended: provided the teacher holds exactly ONE assignment with the
moved `courseId` (list split `l1 ++ moved :: l2` with no other occurrence),
the accepted same-teacher move replaces only that assignment's `courseName`
— the new list is a permutation of the in-place rewrite (the rewritten
assignment is appended at the end) — and `consumedLoad` is preserved. -/
theorem sameTeacher_rewrite_amended
    (teachers : List Teacher) (drag : DragData) (drop : DropData) (A : Teacher)
    (l1 l2 : List Assignment)
    (hgroup : drag.courseGroup = drop.courseGroup)
    (hA : teachers.find? (fun t => t.id == drag.teacherId) = some A)
    (hsame : drag.teacherId = drop.teacherId)
    (hcell : drag.assignment.courseName ≠ drop.courseName)
    (hsplit : A.assignments = l1 ++ drag.assignment :: l2)
    (hid : ∀ a ∈ l1 ++ l2, a.courseId ≠ drag.assignment.courseId) :
    handleDragEnd teachers drag drop = RelocationResult.accepted
      [(A.id, (l1 ++ l2) ++
        [{ drag.assignment with courseName := drop.courseName }])] ∧
    ((l1 ++ l2) ++
        [{ drag.assignment with courseName := drop.courseName }]).Perm
      (l1 ++ { drag.assignment with courseName := drop.courseName } :: l2) ∧
    (calculateTeacherMetrics
      { A with assignments := (l1 ++ l2) ++
        [{ drag.assignment with courseName := drop.courseName }] }).totalLoad =
      (calculateTeacherMetrics A).totalLoad := by
  have hfilter : A.assignments.filter
      (fun a => !(a.courseId == drag.assignment.courseId)) = l1 ++ l2 := by
    rw [hsplit, List.filter_append, List.filter_cons]
    have hx : (!(drag.assignment.courseId == drag.assignment.courseId)) = false := by
      simp
    simp only [hx, Bool.false_eq_true, if_false]
    have h1 : l1.filter (fun a => !(a.courseId == drag.assignment.courseId)) = l1 :=
      List.filter_eq_self.mpr (fun a ha => by
        simp only [Bool.not_eq_true', beq_eq_false_iff_ne]
        exact hid a (List.mem_append_left _ ha))
    have h2 : l2.filter (fun a => !(a.courseId == drag.assignment.courseId)) = l2 :=
      List.filter_eq_self.mpr (fun a ha => by
        simp only [Bool.not_eq_true', beq_eq_false_iff_ne]
        exact hid a (List.mem_append_right _ ha))
    rw [h1, h2]
  refine ⟨?_, ?_, ?_⟩
  · have hbne : (drag.courseGroup != drop.courseGroup) = false := by
      simp [hgroup]
    have hcellb : (drag.teacherId == drop.teacherId &&
        drag.assignment.courseName == drop.courseName) = false := by
      simp [hcell]
    have hteacherb : (drag.teacherId == drop.teacherId) = true := by
      simp [hsame]
    have hnameb : (drag.assignment.courseName == drop.courseName) = false := by
      simp [hcell]
    have hA' : teachers.find? (fun t => t.id == drop.teacherId) = some A := by
      rw [← hsame]; exact hA
    unfold handleDragEnd
    simp only [hbne, Bool.false_eq_true, if_false, hA, hA', hcellb, hteacherb,
      hnameb, Bool.true_and, if_true, hfilter]
  · rw [List.append_assoc]
    exact List.Perm.append_left l1
      (List.perm_append_singleton _ l2)
  · simp only [calculateTeacherMetrics, hsplit]
    simp only [List.filter_append, List.filter_cons, List.map_append,
      List.sum_append]
    cases hcpt : drag.assignment.isCPT <;>
      simp [hcpt, List.filter_append, List.map_append, List.sum_append]
    ring

/-- Witness for C6 at a teacher holding a single assignment with the moved
courseId: the move is a pure label rewrite. -/
theorem sameTeacher_rewrite_amended_witness :
    handleDragEnd
      [⟨"T", "n", Division.MS, 10, 0, 0, [⟨"c1", "X", "G", 3, false, none⟩]⟩]
      ⟨⟨"c1", "X", "G", 3, false, none⟩, "T", "G"⟩ ⟨"T", "G", "Y"⟩ =
      RelocationResult.accepted [("T", [⟨"c1", "Y", "G", 3, false, none⟩])] := by
  have h := sameTeacher_rewrite_amended
    [⟨"T", "n", Division.MS, 10, 0, 0, [⟨"c1", "X", "G", 3, false, none⟩]⟩]
    ⟨⟨"c1", "X", "G", 3, false, none⟩, "T", "G"⟩ ⟨"T", "G", "Y"⟩
    ⟨"T", "n", Division.MS, 10, 0, 0, [⟨"c1", "X", "G", 3, false, none⟩]⟩
    [] [] (by decide) (by decide) (by decide) (by decide) (by decide) (by decide)
  exact h.1.trans (by decide)

/-! ### C4 — what the aggregation accumulates per row -/

/-- Per-column load sum as the SPEC words it (§4.4): for each visible row,
accumulate EVERY assignment whose (group, column) pair resolves to the
column.  Spec-comparison definition for the refinement claim; the code's
definition is `courseTotalsFor`. -/
def specColumnLoadSum (rows : List Teacher) (groupId courseName : String) : Int :=
  (rows.map (fun t =>
    ((t.assignments.filter (fun a =>
      a.courseName == courseName && a.courseGroup == groupId)).map
        (fun a => a.load)).sum)).sum

/-- Per-column student sum as the SPEC words it: every matching assignment of
every visible row is accumulated.  Spec-comparison definition. -/
def specColumnStudentSum (rows : List Teacher) (groupId courseName : String) :
    Int :=
  (rows.map (fun t =>
    ((t.assignments.filter (fun a =>
      a.courseName == courseName && a.courseGroup == groupId)).map
        (fun a => a.students.getD 0)).sum)).sum

/-- Counterexample to C4 as stated: a row holding TWO assignments that both
resolve to the visible column `G_X` (loads 3 and 4, students 10 and 20).  The
code's `find`-based aggregation counts only the first (load 3, students 10),
not the spec's sum over every matching assignment (7 and 30). -/
theorem aggregation_first_match_counterexample :
    (courseTotalsFor
        [⟨"T", "n", Division.MS, 10, 0, 0,
          [⟨"c1", "X", "G", 3, false, some 10⟩,
           ⟨"c2", "X", "G", 4, false, some 20⟩]⟩]
        ⟨"G", "G", "#fff", 0, none, some ["G_X"], none, none⟩ "G_X").load = 3 ∧
    specColumnLoadSum
        [⟨"T", "n", Division.MS, 10, 0, 0,
          [⟨"c1", "X", "G", 3, false, some 10⟩,
           ⟨"c2", "X", "G", 4, false, some 20⟩]⟩] "G" "X" = 7 ∧
    (courseTotalsFor
        [⟨"T", "n", Division.MS, 10, 0, 0,
          [⟨"c1", "X", "G", 3, false, some 10⟩,
           ⟨"c2", "X", "G", 4, false, some 20⟩]⟩]
        ⟨"G", "G", "#fff", 0, none, some ["G_X"], none, none⟩ "G_X").students = 10 ∧
    specColumnStudentSum
        [⟨"T", "n", Division.MS, 10, 0, 0,
          [⟨"c1", "X", "G", 3, false, some 10⟩,
           ⟨"c2", "X", "G", 4, false, some 20⟩]⟩] "G" "X" = 30 :=
  ⟨by decide, by decide, by decide, by decide⟩

/-- The option-match on `find?` agrees with summing over the filtered list
when at most one element matches. -/
theorem find?_match_eq_filter_sum {α : Type} (p : α → Bool) (l : List α)
    (f : α → Int) (h : (l.filter p).length ≤ 1) :
    (match l.find? p with | some a => f a | none => 0) =
      ((l.filter p).map f).sum := by
  rw [find?_eq_head_filter]
  rcases hfl : l.filter p with _ | ⟨a, rest⟩
  · simp
  · cases rest with
    | nil => simp
    | cons b rs =>
      rw [hfl] at h
      simp at h

/-- C4 amended: the aggregation's per-column `loadSum`/`studentSum` accumulate
only the FIRST assignment of each row matching the column; they agree with
the spec's every-assignment sums exactly when each visible row holds at most
one assignment resolving to the column. -/
theorem aggregation_counts_first_match
    (rows : List Teacher) (g : CourseGroup) (columnId : String)
    (h : ∀ t ∈ rows,
      (t.assignments.filter (fun a =>
        a.courseName == parseCourseNameFromColumnId columnId g.id &&
        a.courseGroup == g.id)).length ≤ 1) :
    (courseTotalsFor rows g columnId).load =
      specColumnLoadSum rows g.id (parseCourseNameFromColumnId columnId g.id) ∧
    (courseTotalsFor rows g columnId).students =
      specColumnStudentSum rows g.id
        (parseCourseNameFromColumnId columnId g.id) := by
  constructor
  · simp only [courseTotalsFor, specColumnLoadSum, List.map_map]
    refine congrArg List.sum (List.map_congr_left (fun t ht => ?_))
    have h1 := h t ht
    simp only [Function.comp]
    rw [find?_eq_head_filter]
    rcases hfl : t.assignments.filter (fun a =>
        a.courseName == parseCourseNameFromColumnId columnId g.id &&
        a.courseGroup == g.id) with _ | ⟨a, rest⟩
    · rw [hfl]
      simp
    · rw [hfl]
      cases rest with
      | nil => simp
      | cons b rs =>
        rw [hfl] at h1
        simp at h1
  · simp only [courseTotalsFor, specColumnStudentSum, List.map_map]
    refine congrArg List.sum (List.map_congr_left (fun t ht => ?_))
    have h1 := h t ht
    simp only [Function.comp]
    rw [find?_eq_head_filter]
    rcases hfl : t.assignments.filter (fun a =>
        a.courseName == parseCourseNameFromColumnId columnId g.id &&
        a.courseGroup == g.id) with _ | ⟨a, rest⟩
    · rw [hfl]
      simp
    · rw [hfl]
      cases rest with
      | nil => simp
      | cons b rs =>
        rw [hfl] at h1
        simp at h1

/-- Witness for C4 at a row set where every row has at most one matching
assignment. -/
theorem aggregation_counts_first_match_witness :
    (courseTotalsFor
        [⟨"T", "n", Division.MS, 10, 0, 0, [⟨"c1", "X", "G", 3, false, some 10⟩]⟩]
        ⟨"G", "G", "#fff", 0, none, some ["G_X"], none, none⟩ "G_X").load =
      specColumnLoadSum
        [⟨"T", "n", Division.MS, 10, 0, 0, [⟨"c1", "X", "G", 3, false, some 10⟩]⟩]
        "G" "X" :=
  (aggregation_counts_first_match
    [⟨"T", "n", Division.MS, 10, 0, 0, [⟨"c1", "X", "G", 3, false, some 10⟩]⟩]
    ⟨"G", "G", "#fff", 0, none, some ["G_X"], none, none⟩ "G_X"
    (by decide)).1.trans (by decide)

/-! ### C1 — conservation of total load across a relocation -/

/-- The cell predicate is false at an assignment that does not match the
cell's (name, group) pair. -/
theorem assignMatches_false (a : Assignment) (name gid : String)
    (h : ¬(a.courseName = name ∧ a.courseGroup = gid)) :
    (a.courseName == name && a.courseGroup == gid) = false := by
  rcases Decidable.em (a.courseName = name) with h1 | h1
  · rcases Decidable.em (a.courseGroup = gid) with h2 | h2
    · exact absurd ⟨h1, h2⟩ h
    · simp [h2]
  · simp [h1]

/-- Filtering out a `courseId` that occurs exactly once (at the marked
position) removes exactly that element. -/
theorem filter_out_unique_courseId (l1 l2 : List Assignment) (m : Assignment)
    (hid : ∀ a ∈ l1 ++ l2, a.courseId ≠ m.courseId) :
    (l1 ++ m :: l2).filter (fun a => !(a.courseId == m.courseId)) = l1 ++ l2 := by
  rw [List.filter_append, List.filter_cons]
  have hx : (!(m.courseId == m.courseId)) = false := by simp
  simp only [hx, Bool.false_eq_true, if_false]
  have h1 : l1.filter (fun a => !(a.courseId == m.courseId)) = l1 :=
    List.filter_eq_self.mpr (fun a ha => by
      simp only [Bool.not_eq_true', beq_eq_false_iff_ne]
      exact hid a (List.mem_append_left _ ha))
  have h2 : l2.filter (fun a => !(a.courseId == m.courseId)) = l2 :=
    List.filter_eq_self.mpr (fun a ha => by
      simp only [Bool.not_eq_true', beq_eq_false_iff_ne]
      exact hid a (List.mem_append_right _ ha))
  rw [h1, h2]

/-- When no other element matches, `find?` over the list with the marked
element present returns it, and over the list without it returns nothing. -/
theorem find?_unique_candidate_pos {α : Type} (pr : α → Bool) (l1 l2 : List α)
    (m : α) (h : ∀ a ∈ l1 ++ l2, pr a = false) (hm : pr m = true) :
    (l1 ++ m :: l2).find? pr = some m ∧ (l1 ++ l2).find? pr = none := by
  have hl1 : l1.find? pr = none :=
    List.find?_eq_none.mpr (fun x hx => by simp [h x (List.mem_append_left _ hx)])
  constructor
  · rw [List.find?_append, hl1, List.find?_cons_of_pos _ hm]
    rfl
  · exact List.find?_eq_none.mpr (fun x hx => by simp [h x hx])

/-- When nothing in the base list matches, `find?` over the list with one
matching element appended returns it. -/
theorem find?_append_candidate_pos {α : Type} (pr : α → Bool) (l : List α)
    (x : α) (h : ∀ a ∈ l, pr a = false) (hx : pr x = true) :
    (l ++ [x]).find? pr = some x ∧ l.find? pr = none := by
  have hl : l.find? pr = none :=
    List.find?_eq_none.mpr (fun a ha => by simp [h a ha])
  constructor
  · rw [List.find?_append, hl, List.find?_singleton, if_pos hx]
    rfl
  · exact hl

/-- A keyed indicator sum vanishes when the key does not occur. -/
theorem sum_ite_key_zero {α : Type} (cols : List α) (key : α → String × String)
    (k : String × String) (c : Int) (h : k ∉ cols.map key) :
    (cols.map (fun p => if key p = k then c else 0)).sum = 0 := by
  induction cols with
  | nil => simp
  | cons hd tl ih =>
    simp only [List.map_cons, List.sum_cons]
    rw [if_neg (fun he : key hd = k => h (he ▸ List.mem_cons_self _ _)),
      ih (fun hm => h (List.mem_cons_of_mem _ hm))]
    simp

/-- A keyed indicator sum over pairwise-distinct keys picks the constant
exactly once when the key occurs. -/
theorem sum_ite_key_once {α : Type} (cols : List α) (key : α → String × String)
    (k : String × String) (c : Int) (hnodup : (cols.map key).Nodup)
    (hmem : k ∈ cols.map key) :
    (cols.map (fun p => if key p = k then c else 0)).sum = c := by
  induction cols with
  | nil => simp at hmem
  | cons hd tl ih =>
    simp only [List.map_cons, List.sum_cons]
    simp only [List.map_cons] at hmem hnodup
    rcases List.mem_cons.mp hmem with heq | hmem2
    · have hz : (tl.map (fun p => if key p = k then c else 0)).sum = 0 := by
        apply sum_ite_key_zero
        rw [heq]
        exact (List.nodup_cons.mp hnodup).1
      rw [if_pos heq.symm, hz]
      simp
    · have hne : key hd ≠ k := fun he =>
        (List.nodup_cons.mp hnodup).1 (he ▸ hmem2)
      rw [if_neg hne, ih (List.nodup_cons.mp hnodup).2 hmem2]
      simp

/-- Summation of a pointwise source/destination delta over a column list. -/
theorem sum_map_key_delta {α : Type} (cols : List α) (key : α → String × String)
    (f g : α → Int) (dk sk : String × String) (c : Int)
    (h : ∀ p ∈ cols, g p = f p + (if key p = dk then c else 0) -
      (if key p = sk then c else 0)) :
    (cols.map g).sum = (cols.map f).sum +
      (cols.map (fun p => if key p = dk then c else 0)).sum -
      (cols.map (fun p => if key p = sk then c else 0)).sum := by
  induction cols with
  | nil => simp
  | cons hd tl ih =>
    have hh := h hd (List.mem_cons_self hd tl)
    have ht := fun p hp => h p (List.mem_cons_of_mem hd hp)
    simp only [List.map_cons, List.sum_cons]
    rw [hh, ih ht]
    ring

/-- Counterexample to C1 as stated: moving a load-3 assignment from teacher A
onto teacher B's `G_Y` cell, which is ALREADY occupied by a load-5
assignment.  The move is accepted (only identical-cell and cross-group are
checked), but the `find`-based aggregation then sees only the first
assignment in the destination cell: the total per-column load sum over the
pair drops from 8 to 5 — load is destroyed, not conserved. -/
theorem relocation_total_load_counterexample :
    handleDragEnd
        [⟨"A", "a", Division.MS, 10, 0, 0, [⟨"c1", "X", "G", 3, false, none⟩]⟩,
         ⟨"B", "b", Division.MS, 10, 0, 0, [⟨"c2", "Y", "G", 5, false, none⟩]⟩]
        ⟨⟨"c1", "X", "G", 3, false, none⟩, "A", "G"⟩ ⟨"B", "G", "Y"⟩ =
      RelocationResult.accepted
        [("A", []),
         ("B", [⟨"c2", "Y", "G", 5, false, none⟩, ⟨"c1", "Y", "G", 3, false, none⟩])] ∧
    totalLoadSum
        [⟨"A", "a", Division.MS, 10, 0, 0, [⟨"c1", "X", "G", 3, false, none⟩]⟩,
         ⟨"B", "b", Division.MS, 10, 0, 0, [⟨"c2", "Y", "G", 5, false, none⟩]⟩]
        [⟨"G", "G", "#fff", 0, none, some ["G_X", "G_Y"], none, none⟩] [] = 8 ∧
    totalLoadSum
        (applyAssignmentUpdates
          [⟨"A", "a", Division.MS, 10, 0, 0, [⟨"c1", "X", "G", 3, false, none⟩]⟩,
           ⟨"B", "b", Division.MS, 10, 0, 0, [⟨"c2", "Y", "G", 5, false, none⟩]⟩]
          [("A", []),
           ("B", [⟨"c2", "Y", "G", 5, false, none⟩, ⟨"c1", "Y", "G", 3, false, none⟩])])
        [⟨"G", "G", "#fff", 0, none, some ["G_X", "G_Y"], none, none⟩] [] = 5 :=
  ⟨by decide, by decide, by decide⟩

/-- C1 amended: the aggregation's total load over the visible columns is
conserved by an accepted cross-teacher relocation PROVIDED the visible
columns resolve to pairwise-distinct (group, name) cells with both the
source and destination cells visible, the moved assignment is the only
source assignment with its `courseId` and the only one in its cell, and the
destination teacher's destination cell is empty.  The source list shrinks by
exactly one and the destination grows by exactly one (the paragraph-8
scenario), and for a same-column move every per-column load sum is
unchanged. -/
theorem relocation_conserves_total_load
    (teachers : List Teacher) (groups : List CourseGroup) (collapsed : List String)
    (drag : DragData) (drop : DropData) (A B : Teacher) (l1 l2 : List Assignment)
    (hA : teachers.find? (fun t => t.id == drag.teacherId) = some A)
    (hB : teachers.find? (fun t => t.id == drop.teacherId) = some B)
    (hgroup : drag.courseGroup = drop.courseGroup)
    (hcross : drag.teacherId ≠ drop.teacherId)
    (hmg : drag.assignment.courseGroup = drag.courseGroup)
    (hsplit : A.assignments = l1 ++ drag.assignment :: l2)
    (hid : ∀ a ∈ l1 ++ l2, a.courseId ≠ drag.assignment.courseId)
    (hsrcuniq : ∀ a ∈ l1 ++ l2, ¬(a.courseName = drag.assignment.courseName ∧
      a.courseGroup = drag.assignment.courseGroup))
    (hdest : ∀ a ∈ B.assignments, ¬(a.courseName = drop.courseName ∧
      a.courseGroup = drop.courseGroup))
    (hnodup : ((visibleColumns groups collapsed).map
      (fun p => (p.1.id, parseCourseNameFromColumnId p.2 p.1.id))).Nodup)
    (hsrcmem : (drag.assignment.courseGroup, drag.assignment.courseName) ∈
      (visibleColumns groups collapsed).map
        (fun p => (p.1.id, parseCourseNameFromColumnId p.2 p.1.id)))
    (hdestmem : (drop.courseGroup, drop.courseName) ∈
      (visibleColumns groups collapsed).map
        (fun p => (p.1.id, parseCourseNameFromColumnId p.2 p.1.id))) :
    handleDragEnd teachers drag drop = RelocationResult.accepted
      [(A.id, l1 ++ l2),
       (B.id, B.assignments ++
         [{ drag.assignment with courseName := drop.courseName }])] ∧
    totalLoadSum
        [{ A with assignments := l1 ++ l2 },
         { B with assignments := B.assignments ++
           [{ drag.assignment with courseName := drop.courseName }] }]
        groups collapsed =
      totalLoadSum [A, B] groups collapsed ∧
    (l1 ++ l2).length + 1 = A.assignments.length ∧
    (B.assignments ++
      [{ drag.assignment with courseName := drop.courseName }]).length =
      B.assignments.length + 1 ∧
    (drag.assignment.courseName = drop.courseName →
      ∀ p ∈ visibleColumns groups collapsed,
        (courseTotalsFor
          [{ A with assignments := l1 ++ l2 },
           { B with assignments := B.assignments ++
             [{ drag.assignment with courseName := drop.courseName }] }]
          p.1 p.2).load =
        (courseTotalsFor [A, B] p.1 p.2).load) := by
  have hmGrp : drag.assignment.courseGroup = drop.courseGroup := hmg.trans hgroup
  have hcol : ∀ p ∈ visibleColumns groups collapsed,
      (courseTotalsFor
        [{ A with assignments := l1 ++ l2 },
         { B with assignments := B.assignments ++
           [{ drag.assignment with courseName := drop.courseName }] }]
        p.1 p.2).load =
      (courseTotalsFor [A, B] p.1 p.2).load +
        (if (p.1.id, parseCourseNameFromColumnId p.2 p.1.id) =
            (drop.courseGroup, drop.courseName)
          then drag.assignment.load else 0) -
        (if (p.1.id, parseCourseNameFromColumnId p.2 p.1.id) =
            (drag.assignment.courseGroup, drag.assignment.courseName)
          then drag.assignment.load else 0) := by
    intro p hp
    simp only [courseTotalsFor, List.map_cons, List.map_nil, List.sum_cons,
      List.sum_nil]
    rw [hsplit]
    by_cases hk2 : (p.1.id, parseCourseNameFromColumnId p.2 p.1.id) =
        (drop.courseGroup, drop.courseName)
    · -- destination cell: B gains the moved assignment there
      have hg2 : p.1.id = drop.courseGroup := congrArg Prod.fst hk2
      have hn2 : parseCourseNameFromColumnId p.2 p.1.id = drop.courseName :=
        congrArg Prod.snd hk2
      have hnoB : ∀ a ∈ B.assignments, (a.courseName ==
          parseCourseNameFromColumnId p.2 p.1.id &&
          a.courseGroup == p.1.id) = false := by
        intro a ha
        rw [hn2, hg2]
        exact assignMatches_false a _ _ (hdest a ha)
      have hprmNew : (({ drag.assignment with courseName := drop.courseName } :
          Assignment).courseName == parseCourseNameFromColumnId p.2 p.1.id &&
          ({ drag.assignment with courseName := drop.courseName } :
          Assignment).courseGroup == p.1.id) = true := by
        show (drop.courseName == parseCourseNameFromColumnId p.2 p.1.id &&
          drag.assignment.courseGroup == p.1.id) = true
        rw [hn2, hg2, hmGrp]
        simp
      obtain ⟨hfBnew, hfBold⟩ := find?_append_candidate_pos
        (fun a => a.courseName == parseCourseNameFromColumnId p.2 p.1.id &&
          a.courseGroup == p.1.id) B.assignments
        { drag.assignment with courseName := drop.courseName } hnoB hprmNew
      rw [hfBnew, hfBold]
      by_cases hk1 : (p.1.id, parseCourseNameFromColumnId p.2 p.1.id) =
          (drag.assignment.courseGroup, drag.assignment.courseName)
      · have hg1 : p.1.id = drag.assignment.courseGroup := congrArg Prod.fst hk1
        have hn1 : parseCourseNameFromColumnId p.2 p.1.id =
            drag.assignment.courseName := congrArg Prod.snd hk1
        have hprm : (drag.assignment.courseName ==
            parseCourseNameFromColumnId p.2 p.1.id &&
            drag.assignment.courseGroup == p.1.id) = true := by
          rw [hn1, hg1]
          simp
        have hno : ∀ a ∈ l1 ++ l2, (a.courseName ==
            parseCourseNameFromColumnId p.2 p.1.id &&
            a.courseGroup == p.1.id) = false := by
          intro a ha
          rw [hn1, hg1]
          exact assignMatches_false a _ _ (hsrcuniq a ha)
        obtain ⟨hfA, hfA'⟩ := find?_unique_candidate_pos
          (fun a => a.courseName == parseCourseNameFromColumnId p.2 p.1.id &&
            a.courseGroup == p.1.id) l1 l2 drag.assignment hno hprm
        rw [hfA, hfA', if_pos hk1, if_pos hk2]
        simp
      · have hprmf : (drag.assignment.courseName ==
            parseCourseNameFromColumnId p.2 p.1.id &&
            drag.assignment.courseGroup == p.1.id) = false :=
          assignMatches_false drag.assignment _ _ (fun hc => hk1 (by
            rw [Prod.mk.injEq]
            exact ⟨hc.2.symm, hc.1.symm⟩))
        rw [find?_middle_of_not _ l1 l2 drag.assignment (by simp [hprmf]),
          if_pos hk2, if_neg hk1]
        simp
    · -- not the destination cell: B's contribution is unchanged
      have hprmNewF : (({ drag.assignment with courseName := drop.courseName } :
          Assignment).courseName == parseCourseNameFromColumnId p.2 p.1.id &&
          ({ drag.assignment with courseName := drop.courseName } :
          Assignment).courseGroup == p.1.id) = false :=
        assignMatches_false { drag.assignment with courseName := drop.courseName }
          _ _ (fun hc => hk2 (by
            rw [Prod.mk.injEq]
            exact ⟨hc.2.symm.trans hmGrp, hc.1.symm⟩))
      rw [find?_append_single_of_not _ B.assignments _ (by simp [hprmNewF])]
      by_cases hk1 : (p.1.id, parseCourseNameFromColumnId p.2 p.1.id) =
          (drag.assignment.courseGroup, drag.assignment.courseName)
      · have hg1 : p.1.id = drag.assignment.courseGroup := congrArg Prod.fst hk1
        have hn1 : parseCourseNameFromColumnId p.2 p.1.id =
            drag.assignment.courseName := congrArg Prod.snd hk1
        have hprm : (drag.assignment.courseName ==
            parseCourseNameFromColumnId p.2 p.1.id &&
            drag.assignment.courseGroup == p.1.id) = true := by
          rw [hn1, hg1]
          simp
        have hno : ∀ a ∈ l1 ++ l2, (a.courseName ==
            parseCourseNameFromColumnId p.2 p.1.id &&
            a.courseGroup == p.1.id) = false := by
          intro a ha
          rw [hn1, hg1]
          exact assignMatches_false a _ _ (hsrcuniq a ha)
        obtain ⟨hfA, hfA'⟩ := find?_unique_candidate_pos
          (fun a => a.courseName == parseCourseNameFromColumnId p.2 p.1.id &&
            a.courseGroup == p.1.id) l1 l2 drag.assignment hno hprm
        rw [hfA, hfA', if_neg hk2, if_pos hk1]
        simp
      · have hprmf : (drag.assignment.courseName ==
            parseCourseNameFromColumnId p.2 p.1.id &&
            drag.assignment.courseGroup == p.1.id) = false :=
          assignMatches_false drag.assignment _ _ (fun hc => hk1 (by
            rw [Prod.mk.injEq]
            exact ⟨hc.2.symm, hc.1.symm⟩))
        rw [find?_middle_of_not _ l1 l2 drag.assignment (by simp [hprmf]),
          if_neg hk2, if_neg hk1]
        omega
  have hfilter : A.assignments.filter
      (fun a => !(a.courseId == drag.assignment.courseId)) = l1 ++ l2 := by
    rw [hsplit]
    exact filter_out_unique_courseId l1 l2 drag.assignment hid
  have hacc : handleDragEnd teachers drag drop = RelocationResult.accepted
      [(A.id, l1 ++ l2),
       (B.id, B.assignments ++
         [{ drag.assignment with courseName := drop.courseName }])] := by
    have hbne : (drag.courseGroup != drop.courseGroup) = false := by
      simp [hgroup]
    have hcellb : (drag.teacherId == drop.teacherId &&
        drag.assignment.courseName == drop.courseName) = false := by
      simp [hcross]
    have hteacherb : (drag.teacherId == drop.teacherId) = false := by
      simp [hcross]
    unfold handleDragEnd
    simp only [hbne, Bool.false_eq_true, if_false, hA, hB, hcellb, hteacherb,
      Bool.false_and, hfilter]
  refine ⟨hacc, ?_, ?_, ?_, ?_⟩
  · have hsum := sum_map_key_delta (visibleColumns groups collapsed)
      (fun p => (p.1.id, parseCourseNameFromColumnId p.2 p.1.id))
      (fun p => (courseTotalsFor [A, B] p.1 p.2).load)
      (fun p => (courseTotalsFor
        [{ A with assignments := l1 ++ l2 },
         { B with assignments := B.assignments ++
           [{ drag.assignment with courseName := drop.courseName }] }]
        p.1 p.2).load)
      (drop.courseGroup, drop.courseName)
      (drag.assignment.courseGroup, drag.assignment.courseName)
      drag.assignment.load hcol
    rw [sum_ite_key_once (visibleColumns groups collapsed)
        (fun p => (p.1.id, parseCourseNameFromColumnId p.2 p.1.id))
        (drop.courseGroup, drop.courseName) drag.assignment.load hnodup hdestmem,
      sum_ite_key_once (visibleColumns groups collapsed)
        (fun p => (p.1.id, parseCourseNameFromColumnId p.2 p.1.id))
        (drag.assignment.courseGroup, drag.assignment.courseName)
        drag.assignment.load hnodup hsrcmem] at hsum
    simpa [totalLoadSum] using hsum
  · rw [hsplit]
    simp
    omega
  · simp
  · intro hname p hp
    have hthis := hcol p hp
    have hkeq : (drag.assignment.courseGroup, drag.assignment.courseName) =
        (drop.courseGroup, drop.courseName) := by
      rw [hmGrp, hname]
    rw [← hkeq] at hthis
    by_cases hC : (p.1.id, parseCourseNameFromColumnId p.2 p.1.id) =
        (drag.assignment.courseGroup, drag.assignment.courseName)
    · rw [if_pos hC] at hthis
      omega
    · rw [if_neg hC] at hthis
      omega

/-- Witness for C1 at the spec's §8 scenario: teacher A holds exactly one
assignment (load 3) in the visible `G_X` cell, teacher B holds none; after
the accepted move the recomputed total load over the pair is unchanged. -/
theorem relocation_conserves_total_load_witness :
    totalLoadSum
        [⟨"A", "a", Division.MS, 10, 0, 0, []⟩,
         ⟨"B", "b", Division.MS, 10, 0, 0, [⟨"c1", "X", "G", 3, false, none⟩]⟩]
        [⟨"G", "G", "#fff", 0, none, some ["G_X"], none, none⟩] [] =
      totalLoadSum
        [⟨"A", "a", Division.MS, 10, 0, 0, [⟨"c1", "X", "G", 3, false, none⟩]⟩,
         ⟨"B", "b", Division.MS, 10, 0, 0, []⟩]
        [⟨"G", "G", "#fff", 0, none, some ["G_X"], none, none⟩] [] := by
  have h := relocation_conserves_total_load
    [⟨"A", "a", Division.MS, 10, 0, 0, [⟨"c1", "X", "G", 3, false, none⟩]⟩,
     ⟨"B", "b", Division.MS, 10, 0, 0, []⟩]
    [⟨"G", "G", "#fff", 0, none, some ["G_X"], none, none⟩] []
    ⟨⟨"c1", "X", "G", 3, false, none⟩, "A", "G"⟩ ⟨"B", "G", "X"⟩
    ⟨"A", "a", Division.MS, 10, 0, 0, [⟨"c1", "X", "G", 3, false, none⟩]⟩
    ⟨"B", "b", Division.MS, 10, 0, 0, []⟩ [] []
    (by decide) (by decide) (by decide) (by decide) (by decide) (by decide)
    (by decide) (by decide) (by decide) (by decide) (by decide) (by decide)
  exact h.2.1

end TeacherScheduler
